import Mathlib

/-!
A shallow embedding of the RepelBot moderation core (src/repel.py).

The embedding models the per-channel message cache, the per-user
per-guild activity tracker and spam detector, the on_message
orchestration, the repel command orchestration, the message locator
(get_user_messages) and the per-channel deletion pipeline
(delete_channel_messages).  Network effects (message fetches, bulk
deletions, individual deletions, timeouts) are modelled by outcome
oracles passed in as explicit parameters; wall-clock readings are
explicit arguments.  Python dicts are modelled as association lists in
insertion order, deques as lists, and sets of message ids as lists with
membership-preserving insertion.
-/

/-- CachedMessage mirrors the dict appended to message_cache in on_message:
the fields id, author_id and timestamp of a cached message. -/
structure CachedMessage where
  id : Nat
  authorId : Nat
  timestamp : Int
deriving DecidableEq, Repr

/-- The fixed cache capacity self.max_cache_size = 500. -/
def maxCacheSize : Nat := 500

/-- One record call into a channel cache: deque(maxlen=500).append, which
appends on the right and evicts from the left when the deque is full. -/
def record (buf : List CachedMessage) (m : CachedMessage) : List CachedMessage :=
  let b := buf ++ [m]
  b.drop (b.length - maxCacheSize)

/-- One activity observation for a user and guild: append the pair
(channel_id, timestamp) and rebuild the list keeping entries with
ts > cutoff, where cutoff = now - 30 seconds (lines 71-78 of repel.py). -/
def observe (window : List (Nat × Int)) (channelId : Nat) (ts : Int) (now : Int) :
    List (Nat × Int) :=
  (window ++ [(channelId, ts)]).filter (fun p => decide (now - 30 < p.2))

/-- The spam detection predicate of on_message (lines 81-82):
len(set(ch_id for ch_id, _ in window)) >= 3. -/
def shouldTrigger (window : List (Nat × Int)) : Bool :=
  decide (3 ≤ (window.map Prod.fst).dedup.length)

/-- Association list update with Python dict semantics: an existing key is
updated in place, a new key is appended at the end (insertion order). -/
def setAssoc {κ α : Type} [DecidableEq κ] : List (κ × α) → κ → α → List (κ × α)
  | [], k, v => [(k, v)]
  | (k', v') :: rest, k, v =>
    if k' = k then (k, v) :: rest else (k', v') :: setAssoc rest k v

/-- Association list read with a default, mirroring defaultdict access. -/
def getAssoc {κ α : Type} [DecidableEq κ] (l : List (κ × α)) (k : κ) (dflt : α) : α :=
  match l with
  | [] => dflt
  | (k', v) :: rest => if k' = k then v else getAssoc rest k dflt

/-- The mutable bot state touched by on_message: the per-channel message
cache and the per-(user, guild) activity windows. -/
structure BotState where
  messageCache : List (Nat × List CachedMessage)
  userActivity : List ((Nat × Nat) × List (Nat × Int))
deriving DecidableEq, Repr

/-- The activity window of one user in one guild (empty when absent,
matching the defaultdict). -/
def activityOf (st : BotState) (userId guildId : Nat) : List (Nat × Int) :=
  getAssoc st.userActivity (userId, guildId) []

/-- An inbound message event as seen by on_message. -/
structure MessageEvent where
  authorBot : Bool
  authorId : Nat
  guildId : Nat
  channelId : Nat
  messageId : Nat
  createdAt : Int
deriving DecidableEq, Repr

/-- External calls started by the on_message auto-trigger block, in program
order: the timeout of the author, the locator call with its limit, the
deletion pipeline, the activity clear, and the summary message. -/
inductive BotAction where
  | timeoutUser (userId : Nat) (minutes : Nat)
  | locate (userId : Nat) (limit : Nat)
  | deleteMessages (userId : Nat)
  | resetActivity (userId : Nat) (guildId : Nat)
  | log (deletedCount : Nat)
deriving DecidableEq, Repr

/-- The on_message handler (lines 49-105 of repel.py).  Bot authors are
ignored; otherwise the message is cached, the activity window is updated
and the auto-repel condition is checked.  timeoutOk says whether the
timeout call raises discord.Forbidden (False) or succeeds (True); when it
raises, the whole try block aborts and only the timeout attempt happened.
deletedCount is the result reported by the deletion pipeline.  The second
component lists the external calls started, in order. -/
def onMessage (st : BotState) (msg : MessageEvent) (now : Int)
    (timeoutOk : Bool) (deletedCount : Nat) : BotState × List BotAction :=
  if msg.authorBot then (st, [])
  else
    let buf := getAssoc st.messageCache msg.channelId []
    let cache2 := setAssoc st.messageCache msg.channelId
      (record buf { id := msg.messageId, authorId := msg.authorId, timestamp := msg.createdAt })
    let window := activityOf st msg.authorId msg.guildId
    let window2 := observe window msg.channelId msg.createdAt now
    let st2 : BotState :=
      { messageCache := cache2
        userActivity := setAssoc st.userActivity (msg.authorId, msg.guildId) window2 }
    if shouldTrigger window2 then
      if timeoutOk then
        ({ st2 with userActivity := setAssoc st2.userActivity (msg.authorId, msg.guildId) [] },
         [BotAction.timeoutUser msg.authorId 120, BotAction.locate msg.authorId 50,
          BotAction.deleteMessages msg.authorId,
          BotAction.resetActivity msg.authorId msg.guildId,
          BotAction.log deletedCount])
      else (st2, [BotAction.timeoutUser msg.authorId 120])
    else (st2, [])

/-- Lines of the response built by the repel command. -/
inductive ResponseLine where
  | timedOut (minutes : Nat)
  | couldNotTimeout
  | deletedLine (count : Nat)
deriving DecidableEq, Repr

/-- The repel command orchestration after the permission checks (lines
304-333 of repel.py).  timeoutRaises says whether user.timeout raises
Forbidden or HTTPException; timeout_user catches either and returns False.
The deletion chain runs in parallel regardless and yields deletedCount.
Result: (timeout_success, deleted_count, response lines). -/
def repel (timeoutRaises : Bool) (deletedCount : Nat) (timeoutMinutes : Nat) :
    Bool × Nat × List ResponseLine :=
  let timeoutSuccess := !timeoutRaises
  (timeoutSuccess, deletedCount,
    (if timeoutSuccess then [ResponseLine.timedOut timeoutMinutes]
     else [ResponseLine.couldNotTimeout]) ++ [ResponseLine.deletedLine deletedCount])

/-- A text channel of the guild as seen by the network phase of the
locator: its id, whether the bot may read its history, and its history
(most recent first, as channel.history yields it). -/
structure GuildChannel where
  chId : Nat
  canReadHistory : Bool
  history : List CachedMessage
deriving DecidableEq, Repr

/-- The inner loop of the locator cache phase (lines 117-122): for each
cached message of the author, append (channel, id), add the id to
existing_ids, and return early once the limit is reached.  The Bool says
whether the early return fired. -/
def cacheScan (userId limit chId : Nat) :
    List CachedMessage → List (Nat × Nat) → List Nat →
    List (Nat × Nat) × List Nat × Bool
  | [], msgs, ids => (msgs, ids, false)
  | m :: rest, msgs, ids =>
    if m.authorId = userId then
      let msgs2 := msgs ++ [(chId, m.id)]
      let ids2 := ids.insert m.id
      if limit ≤ msgs2.length then (msgs2, ids2, true)
      else cacheScan userId limit chId rest msgs2 ids2
    else cacheScan userId limit chId rest msgs ids

/-- The locator cache phase (lines 114-122): iterate the message cache in
insertion order, keeping only channels that resolve inside the guild, and
scan each channel deque. -/
def cachePhase (userId limit : Nat) (guildChannelIds : List Nat) :
    List (Nat × List CachedMessage) → List (Nat × Nat) → List Nat →
    List (Nat × Nat) × List Nat × Bool
  | [], msgs, ids => (msgs, ids, false)
  | (chId, cached) :: rest, msgs, ids =>
    if chId ∈ guildChannelIds then
      match cacheScan userId limit chId cached msgs ids with
      | (msgs2, ids2, true) => (msgs2, ids2, true)
      | (msgs2, ids2, false) => cachePhase userId limit guildChannelIds rest msgs2 ids2
    else cachePhase userId limit guildChannelIds rest msgs ids

/-- The history scan of search_channel (lines 137-142): collect messages of
the author whose id is not yet in existing_ids, adding each found id, and
stop once this channel alone contributed remaining messages. -/
def searchScan (userId remaining chId : Nat) :
    List CachedMessage → List (Nat × Nat) → List Nat →
    List (Nat × Nat) × List Nat
  | [], found, ids => (found, ids)
  | m :: rest, found, ids =>
    if m.authorId = userId ∧ m.id ∉ ids then
      let found2 := found ++ [(chId, m.id)]
      let ids2 := ids.insert m.id
      if remaining ≤ found2.length then (found2, ids2)
      else searchScan userId remaining chId rest found2 ids2
    else searchScan userId remaining chId rest found ids

/-- search_channel (lines 129-145): channels without read_message_history
are skipped with an empty result; otherwise the history is queried with
limit max(remaining * 5, 100) and scanned. -/
def search_channel (userId remaining : Nat) (ch : GuildChannel) (ids : List Nat) :
    List (Nat × Nat) × List Nat :=
  if ch.canReadHistory then
    searchScan userId remaining ch.chId (ch.history.take (max (remaining * 5) 100)) [] ids
  else ([], ids)

/-- One gather over a batch of channels (line 152).  The single-threaded
event loop serializes all accesses to the shared existing_ids set, so the
batch is modelled as the channels searched in order against the shared
set, producing the per-channel result lists. -/
def runBatch (userId remaining : Nat) :
    List GuildChannel → List Nat → List (List (Nat × Nat)) × List Nat
  | [], ids => ([], ids)
  | ch :: rest, ids =>
    let r := search_channel userId remaining ch ids
    let o := runBatch userId remaining rest r.2
    (r.1 :: o.1, o.2)

/-- Collection of the gathered batch results (lines 155-158): extend
messages with each channel result in order, stopping once the limit is
reached. -/
def collectResults (limit : Nat) :
    List (List (Nat × Nat)) → List (Nat × Nat) → List (Nat × Nat)
  | [], msgs => msgs
  | r :: rest, msgs =>
    let msgs2 := msgs ++ r
    if limit ≤ msgs2.length then msgs2
    else collectResults limit rest msgs2

/-- Split a list into consecutive batches of five (the stride-5 range loops
at lines 149 and 231 of repel.py). -/
def chunk5 {α : Type} : List α → List (List α)
  | [] => []
  | [a] => [[a]]
  | [a, b] => [[a, b]]
  | [a, b, c] => [[a, b, c]]
  | [a, b, c, d] => [[a, b, c, d]]
  | a :: b :: c :: d :: e :: rest => [a, b, c, d, e] :: chunk5 rest

/-- The locator network phase loop over batches of five channels (lines
148-164): gather a batch, collect its results, and stop as soon as the
limit is reached. -/
def networkLoop (userId limit remaining : Nat) :
    List (List GuildChannel) → List (Nat × Nat) → List Nat → List (Nat × Nat)
  | [], msgs, _ => msgs
  | batch :: more, msgs, ids =>
    let r := runBatch userId remaining batch ids
    let msgs2 := collectResults limit r.1 msgs
    if limit ≤ msgs2.length then msgs2
    else networkLoop userId limit remaining more msgs2 r.2

/-- get_user_messages (lines 107-166): cache phase first, early-returning
the collected list when the limit was reached inside the scan; otherwise
the network phase runs when fewer than limit were found, and the final
list is truncated to limit. -/
def get_user_messages (messageCache : List (Nat × List CachedMessage))
    (guildChannelIds : List Nat) (textChannels : List GuildChannel)
    (userId limit : Nat) : List (Nat × Nat) :=
  match cachePhase userId limit guildChannelIds messageCache [] [] with
  | (msgs, _, true) => msgs
  | (msgs, ids, false) =>
    (if msgs.length < limit then
      networkLoop userId limit (limit - msgs.length) (chunk5 textChannels) msgs ids
     else msgs).take limit

/-- A message record as returned by channel.fetch_message: its id and
creation time, the fields the deletion pipeline reads. -/
structure FetchedMessage where
  id : Nat
  createdAt : Int
deriving DecidableEq, Repr

/-- Split a list into consecutive batches of ten (the stride-10 fetch loop
at line 175 of repel.py). -/
def chunk10 {α : Type} : List α → List (List α)
  | [] => []
  | [a] => [[a]]
  | [a, b] => [[a, b]]
  | [a, b, c] => [[a, b, c]]
  | [a, b, c, d] => [[a, b, c, d]]
  | [a, b, c, d, e] => [[a, b, c, d, e]]
  | [a, b, c, d, e, f] => [[a, b, c, d, e, f]]
  | [a, b, c, d, e, f, g] => [[a, b, c, d, e, f, g]]
  | [a, b, c, d, e, f, g, h] => [[a, b, c, d, e, f, g, h]]
  | [a, b, c, d, e, f, g, h, i] => [[a, b, c, d, e, f, g, h, i]]
  | a :: b :: c :: d :: e :: f :: g :: h :: i :: j :: rest =>
    [a, b, c, d, e, f, g, h, i, j] :: chunk10 rest

/-- The fetch stage of delete_channel_messages (lines 173-185): ids are
fetched in batches of ten; fetchOk gives the fetched record, or none when
the fetch raised, and failed fetches are dropped from valid_messages. -/
def fetchPhase (fetchOk : Nat → Option FetchedMessage) (msgIds : List Nat) :
    List FetchedMessage :=
  (chunk10 msgIds).map (fun batch => batch.filterMap fetchOk) |>.flatten

/-- The recent partition (line 192): messages with created_at > cutoff,
where cutoff = now - 14 days. -/
def recentOf (cutoff : Int) (valid : List FetchedMessage) : List FetchedMessage :=
  valid.filter (fun m => decide (cutoff < m.createdAt))

/-- The old partition (line 193): messages with created_at <= cutoff. -/
def oldOf (cutoff : Int) (valid : List FetchedMessage) : List FetchedMessage :=
  valid.filter (fun m => decide (m.createdAt ≤ cutoff))

/-- Outcome of one iteration of the bulk-delete loop: the first
delete_messages call succeeds; or it is rate limited (status 429) and the
single retry after the backoff sleep succeeds or fails; or it fails with
another HTTPException status. -/
inductive BulkOutcome where
  | ok
  | rateLimited (retryOk : Bool)
  | otherError
deriving DecidableEq, Repr

/-- Result of the bulk-delete while loop (lines 196-218): whether the loop
exited (as opposed to running out of fuel), the deleted counter, the list
accumulated for individual deletion, the recent messages left when the
loop stopped, and the sizes of the chunks handed to delete_messages, one
per iteration. -/
structure BulkResult where
  finished : Bool
  deleted : Nat
  old : List FetchedMessage
  recentLeft : List FetchedMessage
  calls : List Nat
deriving DecidableEq, Repr

/-- The bulk-delete while loop of delete_channel_messages (lines 196-215),
one fuel unit per iteration.  While at least two recent messages remain
the first 100 form the chunk; on success the counter advances and the
chunk is dropped from recent; on a rate limit with failed retry the chunk
is appended to old and recent is left unchanged, exactly as in the source
(the except branch at lines 209-211 does not advance recent); on any
other HTTPException the chunk is appended to old and dropped from
recent. -/
def bulkLoop (outcomes : Nat → BulkOutcome) :
    Nat → Nat → List FetchedMessage → List FetchedMessage → Nat → BulkResult
  | 0, _, recent, old, deleted =>
    if recent.length < 2 then ⟨true, deleted, old, recent, []⟩
    else ⟨false, deleted, old, recent, []⟩
  | fuel + 1, k, recent, old, deleted =>
    if recent.length < 2 then ⟨true, deleted, old, recent, []⟩
    else
      let batch := recent.take 100
      let res :=
        match outcomes k with
        | BulkOutcome.ok =>
          bulkLoop outcomes fuel (k + 1) (recent.drop 100) old (deleted + batch.length)
        | BulkOutcome.rateLimited true =>
          bulkLoop outcomes fuel (k + 1) (recent.drop 100) old (deleted + batch.length)
        | BulkOutcome.rateLimited false =>
          bulkLoop outcomes fuel (k + 1) recent (old ++ batch) deleted
        | BulkOutcome.otherError =>
          bulkLoop outcomes fuel (k + 1) (recent.drop 100) (old ++ batch) deleted
      { res with calls := batch.length :: res.calls }

/-- delete_single (lines 223-228): an individual deletion contributes 1 on
success and 0 when it raises; delOk is the outcome oracle. -/
def delete_single (delOk : FetchedMessage → Bool) (m : FetchedMessage) : Nat :=
  if delOk m then 1 else 0

/-- The individual deletion stage (lines 231-236): batches of five
concurrent deletions, each batch contributing the sum of its
delete_single results. -/
def individualLoop (delOk : FetchedMessage → Bool) (old : List FetchedMessage) : Nat :=
  ((chunk5 old).map (fun batch => (batch.map (delete_single delOk)).sum)).sum

/-- delete_channel_messages (lines 168-238): fetch the ids, return 0 when
nothing resolved, partition by the 14-day cutoff, run the bulk loop on
the recent partition, then individually delete old plus the leftover
recent messages; none models the diverging run (the loop never exits
within the given fuel). -/
def delete_channel_messages (fetchOk : Nat → Option FetchedMessage)
    (outcomes : Nat → BulkOutcome) (delOk : FetchedMessage → Bool)
    (cutoff : Int) (fuel : Nat) (msgIds : List Nat) : Option Nat :=
  let valid := fetchPhase fetchOk msgIds
  if valid = [] then some 0
  else
    let r := bulkLoop outcomes fuel 0 (recentOf cutoff valid) (oldOf cutoff valid) 0
    if r.finished then
      some (r.deleted + individualLoop delOk (r.old ++ r.recentLeft))
    else none

/-- C4: the spam detection predicate returns true exactly when the number
of distinct channel ids in the current window is at least 3, and hence
false for 0, 1 or 2 distinct channels no matter how many entries the
window holds. -/
theorem C4_shouldTrigger_iff_three_distinct_channels (window : List (Nat × Int)) :
    shouldTrigger window = true ↔ 3 ≤ (window.map Prod.fst).toFinset.card := by
  simp [shouldTrigger, List.card_toFinset]

/-- C5: every entry retained by an observation is strictly newer than
now - 30 seconds, i.e. the stored window is the appended sequence
filtered to the trailing 30-second window with a strict lower bound. -/
theorem C5_observe_entries_within_window (w : List (Nat × Int)) (ch : Nat)
    (ts now : Int) (p : Nat × Int) (hp : p ∈ observe w ch ts now) :
    now - 30 < p.2 := by
  simp only [observe, List.mem_filter, decide_eq_true_eq] at hp
  exact hp.2

/-- C5 witness: an observation of channel 1 at time 0 with now = 0 keeps
the appended entry, which satisfies the strict window bound. -/
theorem C5_observe_entries_within_window_witness :
    (0 : Int) - 30 < (0 : Int) :=
  C5_observe_entries_within_window [] 1 0 0 (1, 0) (by decide)

/-- C6: record keeps the cache length at most 500, appends at the right
while below capacity (insertion order equals arrival order), and at
capacity evicts exactly the oldest element before appending; record is a
total function and never fails. -/
theorem C6_record_capacity_fifo (buf : List CachedMessage) (m : CachedMessage)
    (h : buf.length ≤ maxCacheSize) :
    (record buf m).length ≤ maxCacheSize ∧
    (buf.length < maxCacheSize → record buf m = buf ++ [m]) ∧
    (buf.length = maxCacheSize → record buf m = buf.drop 1 ++ [m]) := by
  refine ⟨?_, ?_, ?_⟩
  · simp only [record, List.length_drop, List.length_append, List.length_singleton]
    omega
  · intro hlt
    have h0 : buf.length + 1 - maxCacheSize = 0 := by omega
    simp [record, h0]
  · intro heq
    cases buf with
    | nil => simp [maxCacheSize] at heq
    | cons a t =>
      simp only [List.length_cons] at heq
      have h1 : t.length + 1 + 1 - maxCacheSize = 1 := by omega
      simp only [record, List.cons_append, List.length_cons, List.length_append,
        List.length_nil, Nat.zero_add]
      rw [h1]
      simp

/-- C6 witness: a cache of one message stays within capacity and the new
message is appended on the right. -/
theorem C6_record_capacity_fifo_witness :
    (record [⟨1, 7, 0⟩] ⟨2, 7, 0⟩).length ≤ maxCacheSize ∧
    (([⟨1, 7, 0⟩] : List CachedMessage).length < maxCacheSize →
      record [⟨1, 7, 0⟩] ⟨2, 7, 0⟩ = [⟨1, 7, 0⟩] ++ [⟨2, 7, 0⟩]) ∧
    (([⟨1, 7, 0⟩] : List CachedMessage).length = maxCacheSize →
      record [⟨1, 7, 0⟩] ⟨2, 7, 0⟩ = ([⟨1, 7, 0⟩] : List CachedMessage).drop 1 ++ [⟨2, 7, 0⟩]) :=
  C6_record_capacity_fifo [⟨1, 7, 0⟩] ⟨2, 7, 0⟩ (by decide)

/-- C10: a message authored by a bot leaves the whole bot state unchanged
and starts no external call: the handler returns before the cache, the
activity tracker or the trigger logic is reached. -/
theorem C10_bot_author_no_effect (st : BotState) (evt : MessageEvent) (now : Int)
    (timeoutOk : Bool) (deletedCount : Nat) (hbot : evt.authorBot = true) :
    onMessage st evt now timeoutOk deletedCount = (st, []) := by
  simp [onMessage, hbot]

/-- C10 witness: a concrete bot-authored event leaves a concrete state
untouched. -/
theorem C10_bot_author_no_effect_witness :
    onMessage ⟨[(1, [⟨5, 7, 0⟩])], [((7, 1), [(1, 0)])]⟩ ⟨true, 7, 1, 2, 9, 0⟩ 0 true 3 =
      (⟨[(1, [⟨5, 7, 0⟩])], [((7, 1), [(1, 0)])]⟩, []) :=
  C10_bot_author_no_effect ⟨[(1, [⟨5, 7, 0⟩])], [((7, 1), [(1, 0)])]⟩
    ⟨true, 7, 1, 2, 9, 0⟩ 0 true 3 rfl

/-- A state in which user 7 already posted in channels 1 and 2 of guild 1
within the window. -/
def exState : BotState := ⟨[], [((7, 1), [(1, 0), (2, 0)])]⟩

/-- A third message of user 7, in channel 3 of guild 1, which makes the
window reach three distinct channels and fires the auto-trigger. -/
def exEvent : MessageEvent := ⟨false, 7, 1, 3, 99, 0⟩

/-- C2 counterexample: on a concrete auto-trigger the first external call
is the timeout (the suspension action), and the activity reset happens
only at position 3, after the locator and the deletion pipeline: the
reset is not invoked before the suspension action and the
locator-to-pipeline chain are started, contrary to the claim. -/
theorem C2_reset_not_before_action_counterexample :
    (onMessage exState exEvent 0 true 0).2.head? = some (BotAction.timeoutUser 7 120) ∧
    (onMessage exState exEvent 0 true 0).2.indexOf (BotAction.resetActivity 7 1) = 3 := by
  decide

/-- C2 amended: on every auto-trigger whose suspension and deletion
complete without a permission error, the window reset is invoked exactly
once, after the suspension action, the locator (invoked with the fixed
default limit of 50) and the deletion pipeline, and before the summary;
when the suspension raises a permission error, the reset is not invoked
at all. -/
theorem C2_reset_once_after_action (st : BotState) (evt : MessageEvent)
    (now : Int) (deletedCount : Nat) (hbot : evt.authorBot = false)
    (htrig : shouldTrigger
      (observe (activityOf st evt.authorId evt.guildId) evt.channelId evt.createdAt now)
      = true) :
    (onMessage st evt now true deletedCount).2 =
      [BotAction.timeoutUser evt.authorId 120, BotAction.locate evt.authorId 50,
       BotAction.deleteMessages evt.authorId,
       BotAction.resetActivity evt.authorId evt.guildId,
       BotAction.log deletedCount] ∧
    (onMessage st evt now false deletedCount).2 =
      [BotAction.timeoutUser evt.authorId 120] := by
  constructor <;> simp [onMessage, hbot, htrig]

/-- C2 witness: the amended trigger behaviour at the concrete triggering
state and event. -/
theorem C2_reset_once_after_action_witness :
    (onMessage exState exEvent 0 true 5).2 =
      [BotAction.timeoutUser 7 120, BotAction.locate 7 50,
       BotAction.deleteMessages 7, BotAction.resetActivity 7 1, BotAction.log 5] ∧
    (onMessage exState exEvent 0 false 5).2 = [BotAction.timeoutUser 7 120] :=
  C2_reset_once_after_action exState exEvent 0 5 rfl (by decide)

/-- C3 counterexample: on a concrete auto-trigger whose timeout raises
discord.Forbidden, the handler starts only the timeout attempt: the
deletion pipeline is never invoked and no result summary is emitted, so
the orchestrator does not proceed with deletion and reporting on this
triggered action, contrary to the claim. -/
theorem C3_auto_trigger_forbidden_skips_deletion_counterexample :
    (onMessage exState exEvent 0 false 0).2 = [BotAction.timeoutUser 7 120] ∧
    BotAction.deleteMessages 7 ∉ (onMessage exState exEvent 0 false 0).2 ∧
    BotAction.log 0 ∉ (onMessage exState exEvent 0 false 0).2 := by
  decide

/-- C3 amended: for the explicit moderation request (the repel command), a
suspension failure yields false and never propagates, the deletion result
is still produced, and the summary always carries the deleted count, with
an explicit could-not-timeout line in the failure case; on the
auto-trigger path a Forbidden suspension failure instead silently aborts
deletion and reporting (without crashing). -/
theorem C3_repel_timeout_failure_still_reports (timeoutRaises : Bool)
    (deletedCount timeoutMinutes : Nat) :
    (repel timeoutRaises deletedCount timeoutMinutes).1 = !timeoutRaises ∧
    ResponseLine.deletedLine deletedCount ∈
      (repel timeoutRaises deletedCount timeoutMinutes).2.2 ∧
    (repel true deletedCount timeoutMinutes).2.2 =
      [ResponseLine.couldNotTimeout, ResponseLine.deletedLine deletedCount] := by
  cases timeoutRaises <;> simp [repel]

/-- C1: with every bulk attempt rate limited and every retry failing, the
bulk-delete while loop never exits on a chunk of two recent messages: the
rate-limit branch that gives up on the retry (lines 209-211 of repel.py)
appends the chunk to the individual-deletion list but does not advance
recent, so the same chunk is retried forever, for any fuel bound, any
outer state of the counter and any accumulated old list. -/
theorem C1_bulk_rate_limit_loop_never_finishes (fuel k deleted : Nat)
    (old : List FetchedMessage) :
    (bulkLoop (fun _ => BulkOutcome.rateLimited false) fuel k
      [⟨1, 0⟩, ⟨2, 0⟩] old deleted).finished = false := by
  induction fuel generalizing k old deleted with
  | zero => simp [bulkLoop]
  | succ n ih => simpa [bulkLoop] using ih (k + 1) deleted (old ++ [⟨1, 0⟩, ⟨2, 0⟩])

/-- Every chunk handed to delete_messages by the bulk loop has between 2
and 100 messages: a chunk is recent[:100] and is only formed while at
least two recent messages remain. -/
theorem bulkLoop_calls_bounded (outcomes : Nat → BulkOutcome) :
    ∀ (fuel k deleted : Nat) (recent old : List FetchedMessage) (s : Nat),
      s ∈ (bulkLoop outcomes fuel k recent old deleted).calls → 2 ≤ s ∧ s ≤ 100 := by
  intro fuel
  induction fuel with
  | zero =>
    intro k deleted recent old s hs
    by_cases h : recent.length < 2 <;> simp [bulkLoop, h] at hs
  | succ n ih =>
    intro k deleted recent old s hs
    by_cases h : recent.length < 2
    · simp [bulkLoop, h] at hs
    · have hlen : (recent.take 100).length = min 100 recent.length := List.length_take 100 recent
      cases houtcome : outcomes k with
      | ok =>
        simp only [bulkLoop, if_neg h, houtcome] at hs
        rcases List.mem_cons.mp hs with rfl | hmem
        · constructor <;> omega
        · exact ih _ _ _ _ _ hmem
      | rateLimited retryOk =>
        cases retryOk <;>
        · simp only [bulkLoop, if_neg h, houtcome] at hs
          rcases List.mem_cons.mp hs with rfl | hmem
          · exact ⟨by omega, by omega⟩
          · exact ih _ _ _ _ _ hmem
      | otherError =>
        simp only [bulkLoop, if_neg h, houtcome] at hs
        rcases List.mem_cons.mp hs with rfl | hmem
        · constructor <;> omega
        · exact ih _ _ _ _ _ hmem

/-- When the bulk loop exits, fewer than two recent messages remain, so at
most one leftover message is deferred to individual deletion. -/
theorem bulkLoop_recentLeft_short (outcomes : Nat → BulkOutcome) :
    ∀ (fuel k deleted : Nat) (recent old : List FetchedMessage),
      (bulkLoop outcomes fuel k recent old deleted).finished = true →
      (bulkLoop outcomes fuel k recent old deleted).recentLeft.length ≤ 1 := by
  intro fuel
  induction fuel with
  | zero =>
    intro k deleted recent old hfin
    by_cases h : recent.length < 2 <;> simp [bulkLoop, h] at hfin ⊢
    omega
  | succ n ih =>
    intro k deleted recent old hfin
    by_cases h : recent.length < 2
    · simp [bulkLoop, h] at hfin ⊢; omega
    · cases houtcome : outcomes k with
      | ok =>
        simp only [bulkLoop, if_neg h, houtcome] at hfin ⊢
        exact ih _ _ _ _ hfin
      | rateLimited retryOk =>
        cases retryOk <;>
        · simp only [bulkLoop, if_neg h, houtcome] at hfin ⊢
          exact ih _ _ _ _ hfin
      | otherError =>
        simp only [bulkLoop, if_neg h, houtcome] at hfin ⊢
        exact ih _ _ _ _ hfin

/-- C8: running the deletion pipeline on one channel, the bulk stage works
on exactly the messages created after the 14-day cutoff, every chunk it
hands to delete_messages holds between 2 and 100 messages (a bulk call is
issued only while at least two recent messages remain), and when the loop
exits the leftover recent chunk has at most one message and is deferred
to individual deletion rather than bulk-deleted. -/
theorem C8_bulk_chunk_discipline (fetchOk : Nat → Option FetchedMessage)
    (outcomes : Nat → BulkOutcome) (cutoff : Int) (fuel : Nat) (msgIds : List Nat)
    (hfin : (bulkLoop outcomes fuel 0 (recentOf cutoff (fetchPhase fetchOk msgIds))
      (oldOf cutoff (fetchPhase fetchOk msgIds)) 0).finished = true) :
    ((bulkLoop outcomes fuel 0 (recentOf cutoff (fetchPhase fetchOk msgIds))
        (oldOf cutoff (fetchPhase fetchOk msgIds)) 0).calls.all
      (fun s => decide (2 ≤ s) && decide (s ≤ 100)) = true) ∧
    (bulkLoop outcomes fuel 0 (recentOf cutoff (fetchPhase fetchOk msgIds))
        (oldOf cutoff (fetchPhase fetchOk msgIds)) 0).recentLeft.length ≤ 1 ∧
    ((recentOf cutoff (fetchPhase fetchOk msgIds)).all
      (fun m => decide (cutoff < m.createdAt)) = true) := by
  refine ⟨?_, ?_, ?_⟩
  · simp only [List.all_eq_true, Bool.and_eq_true, decide_eq_true_eq]
    intro s hs
    exact bulkLoop_calls_bounded outcomes fuel 0 0 _ _ s hs
  · exact bulkLoop_recentLeft_short outcomes fuel 0 0 _ _ hfin
  · simp only [List.all_eq_true, recentOf]
    intro m hm
    exact (List.mem_filter.mp hm).2

/-- C8 witness: three fresh messages, all fetches succeeding and the bulk
call succeeding, give a single bulk chunk of three, no leftover and a
recent partition that is entirely inside the cutoff window. -/
theorem C8_bulk_chunk_discipline_witness :
    ((bulkLoop (fun _ => BulkOutcome.ok) 4 0
        (recentOf 0 (fetchPhase (fun i => some ⟨i, 5⟩) [1, 2, 3]))
        (oldOf 0 (fetchPhase (fun i => some ⟨i, 5⟩) [1, 2, 3])) 0).calls.all
      (fun s => decide (2 ≤ s) && decide (s ≤ 100)) = true) ∧
    (bulkLoop (fun _ => BulkOutcome.ok) 4 0
        (recentOf 0 (fetchPhase (fun i => some ⟨i, 5⟩) [1, 2, 3]))
        (oldOf 0 (fetchPhase (fun i => some ⟨i, 5⟩) [1, 2, 3])) 0).recentLeft.length ≤ 1 ∧
    ((recentOf 0 (fetchPhase (fun i => some ⟨i, 5⟩) [1, 2, 3])).all
      (fun m => decide ((0 : Int) < m.createdAt)) = true) :=
  C8_bulk_chunk_discipline (fun i => some ⟨i, 5⟩) (fun _ => BulkOutcome.ok) 0 4 [1, 2, 3]
    (by decide)

/-- Batches of five flattened back together give the original list. -/
theorem chunk5_flatten {α : Type} : ∀ l : List α, (chunk5 l).flatten = l
  | [] => rfl
  | [_] => rfl
  | [_, _] => rfl
  | [_, _, _] => rfl
  | [_, _, _, _] => rfl
  | a :: b :: c :: d :: e :: rest => by
    simp [chunk5, chunk5_flatten rest]

/-- The sum of delete_single results over a batch is the number of
successful deletions in the batch. -/
theorem sum_delete_single_eq_countP (delOk : FetchedMessage → Bool) :
    ∀ b : List FetchedMessage,
      (b.map (delete_single delOk)).sum = b.countP delOk := by
  intro b
  induction b with
  | nil => simp
  | cons m rest ih =>
    by_cases h : delOk m <;> simp [delete_single, List.countP_cons, h, ih]
    omega

/-- The individual deletion stage returns exactly the number of successful
deletions of its input: each failure contributes zero and never aborts
the batch. -/
theorem individualLoop_eq_countP (delOk : FetchedMessage → Bool)
    (old : List FetchedMessage) :
    individualLoop delOk old = old.countP delOk := by
  have hbatches : ∀ bs : List (List FetchedMessage),
      ((bs.map (fun batch => (batch.map (delete_single delOk)).sum)).sum =
        (bs.flatten).countP delOk) := by
    intro bs
    induction bs with
    | nil => simp
    | cons b rest ih =>
      simp [List.countP_append, ih, sum_delete_single_eq_countP delOk b]
  have := hbatches (chunk5 old)
  rwa [chunk5_flatten old] at this

/-- C9: whenever the bulk loop exits, delete_channel_messages returns the
bulk successes plus one per successful individual deletion over exactly
the not-bulk-eligible input (the old partition together with bulk-call
fallbacks, accumulated in the loop old list, plus the sub-2 leftover),
processed in batches of five; individual failures count zero and never
abort, so the per-channel count equals the number of successful
deletions. -/
theorem C9_individual_deletion_count (fetchOk : Nat → Option FetchedMessage)
    (outcomes : Nat → BulkOutcome) (delOk : FetchedMessage → Bool)
    (cutoff : Int) (fuel : Nat) (msgIds : List Nat)
    (hfin : (bulkLoop outcomes fuel 0 (recentOf cutoff (fetchPhase fetchOk msgIds))
      (oldOf cutoff (fetchPhase fetchOk msgIds)) 0).finished = true) :
    delete_channel_messages fetchOk outcomes delOk cutoff fuel msgIds =
      some ((bulkLoop outcomes fuel 0 (recentOf cutoff (fetchPhase fetchOk msgIds))
          (oldOf cutoff (fetchPhase fetchOk msgIds)) 0).deleted +
        ((bulkLoop outcomes fuel 0 (recentOf cutoff (fetchPhase fetchOk msgIds))
            (oldOf cutoff (fetchPhase fetchOk msgIds)) 0).old ++
          (bulkLoop outcomes fuel 0 (recentOf cutoff (fetchPhase fetchOk msgIds))
            (oldOf cutoff (fetchPhase fetchOk msgIds)) 0).recentLeft).countP delOk) := by
  by_cases hv : fetchPhase fetchOk msgIds = []
  · have hloop : bulkLoop outcomes fuel 0 (recentOf cutoff (fetchPhase fetchOk msgIds))
        (oldOf cutoff (fetchPhase fetchOk msgIds)) 0 = ⟨true, 0, [], [], []⟩ := by
      cases fuel <;> simp [bulkLoop, hv, recentOf, oldOf]
    rw [hv] at hloop
    simp [delete_channel_messages, hv, hloop]
  · simp only [delete_channel_messages, if_neg hv, hfin, if_pos,
      individualLoop_eq_countP]

/-- C9 witness: seven fetched messages, three recent and four old, one
failing individual deletion; the returned count is the bulk successes
plus the successful individual deletions. -/
theorem C9_individual_deletion_count_witness :
    delete_channel_messages (fun i => some ⟨i, if i ≤ 3 then 5 else -5⟩)
        (fun _ => BulkOutcome.ok) (fun m => decide (m.id ≠ 6)) 0 4 [1, 2, 3, 4, 5, 6, 7] =
      some ((bulkLoop (fun _ => BulkOutcome.ok) 4 0
          (recentOf 0 (fetchPhase (fun i => some ⟨i, if i ≤ 3 then 5 else -5⟩) [1, 2, 3, 4, 5, 6, 7]))
          (oldOf 0 (fetchPhase (fun i => some ⟨i, if i ≤ 3 then 5 else -5⟩) [1, 2, 3, 4, 5, 6, 7])) 0).deleted +
        ((bulkLoop (fun _ => BulkOutcome.ok) 4 0
            (recentOf 0 (fetchPhase (fun i => some ⟨i, if i ≤ 3 then 5 else -5⟩) [1, 2, 3, 4, 5, 6, 7]))
            (oldOf 0 (fetchPhase (fun i => some ⟨i, if i ≤ 3 then 5 else -5⟩) [1, 2, 3, 4, 5, 6, 7])) 0).old ++
          (bulkLoop (fun _ => BulkOutcome.ok) 4 0
            (recentOf 0 (fetchPhase (fun i => some ⟨i, if i ≤ 3 then 5 else -5⟩) [1, 2, 3, 4, 5, 6, 7]))
            (oldOf 0 (fetchPhase (fun i => some ⟨i, if i ≤ 3 then 5 else -5⟩) [1, 2, 3, 4, 5, 6, 7])) 0).recentLeft).countP
          (fun m => decide (m.id ≠ 6))) :=
  C9_individual_deletion_count (fun i => some ⟨i, if i ≤ 3 then 5 else -5⟩)
    (fun _ => BulkOutcome.ok) (fun m => decide (m.id ≠ 6)) 0 4 [1, 2, 3, 4, 5, 6, 7]
    (by decide)

/-- The ids of the messages a given author has in one cached channel
sequence, in order. -/
def authoredIds (userId : Nat) (ms : List CachedMessage) : List Nat :=
  (ms.filter (fun m => decide (m.authorId = userId))).map (fun m => m.id)

/-- The ids of the messages a given author has across the guild-resolved
part of the message cache, in cache iteration order. -/
def cacheAuthoredIds (userId : Nat) (guildChannelIds : List Nat)
    (cache : List (Nat × List CachedMessage)) : List Nat :=
  ((cache.filter (fun e => decide (e.1 ∈ guildChannelIds))).map
    (fun e => authoredIds userId e.2)).flatten

/-- The cache scan keeps the collected list at the limit when the early
return fires and strictly below it otherwise, provided it starts strictly
below. -/
theorem cacheScan_length (userId limit chId : Nat) :
    ∀ (ms : List CachedMessage) (msgs : List (Nat × Nat)) (ids : List Nat),
      msgs.length < limit →
      ((cacheScan userId limit chId ms msgs ids).2.2 = true →
        (cacheScan userId limit chId ms msgs ids).1.length ≤ limit) ∧
      ((cacheScan userId limit chId ms msgs ids).2.2 = false →
        (cacheScan userId limit chId ms msgs ids).1.length < limit) := by
  intro ms
  induction ms with
  | nil =>
    intro msgs ids h
    simp [cacheScan]
    omega
  | cons m rest ih =>
    intro msgs ids h
    by_cases ha : m.authorId = userId
    · by_cases hstop : limit ≤ (msgs ++ [(chId, m.id)]).length
      · simp only [cacheScan, if_pos ha, if_pos hstop]
        simp only [List.length_append, List.length_singleton] at hstop ⊢
        constructor
        · intro _; omega
        · intro hx; simp at hx
      · simp only [cacheScan, if_pos ha, if_neg hstop]
        refine ih _ _ ?_
        simp only [List.length_append, List.length_singleton] at hstop ⊢
        omega
    · simp only [cacheScan, if_neg ha]
      exact ih _ _ h

/-- The cache phase keeps the collected list at the limit when the early
return fires and strictly below it otherwise, provided it starts strictly
below. -/
theorem cachePhase_length (userId limit : Nat) (gIds : List Nat) :
    ∀ (cache : List (Nat × List CachedMessage)) (msgs : List (Nat × Nat)) (ids : List Nat),
      msgs.length < limit →
      ((cachePhase userId limit gIds cache msgs ids).2.2 = true →
        (cachePhase userId limit gIds cache msgs ids).1.length ≤ limit) ∧
      ((cachePhase userId limit gIds cache msgs ids).2.2 = false →
        (cachePhase userId limit gIds cache msgs ids).1.length < limit) := by
  intro cache
  induction cache with
  | nil =>
    intro msgs ids h
    simp [cachePhase]
    omega
  | cons e rest ih =>
    obtain ⟨chId, cached⟩ := e
    intro msgs ids h
    by_cases hg : chId ∈ gIds
    · have hscan := cacheScan_length userId limit chId cached msgs ids h
      rcases hdone : cacheScan userId limit chId cached msgs ids with ⟨msgs2, ids2, done⟩
      rw [hdone] at hscan
      cases done with
      | false =>
        simp only [cachePhase, if_pos hg, hdone]
        exact ih msgs2 ids2 (hscan.2 rfl)
      | true =>
        simp only [cachePhase, if_pos hg, hdone]
        constructor
        · intro _; exact hscan.1 rfl
        · intro hx; simp at hx
    · simp only [cachePhase, if_neg hg]
      exact ih msgs ids h

/-- Invariant threaded through the locator: the collected candidate list
has pairwise distinct message ids and every collected id is registered in
existing_ids. -/
def goodAcc (acc : List (Nat × Nat)) (ids : List Nat) : Prop :=
  (acc.map Prod.snd).Nodup ∧ acc.map Prod.snd ⊆ ids

/-- Appending a candidate whose id is not yet registered preserves the
locator invariant, with the id registered afterwards. -/
theorem goodAcc_extend {acc : List (Nat × Nat)} {ids : List Nat} {ch m : Nat}
    (h : goodAcc acc ids) (hm : m ∉ ids) :
    goodAcc (acc ++ [(ch, m)]) (ids.insert m) := by
  constructor
  · rw [List.map_append]
    refine List.Nodup.append h.1 (by simp) ?_
    intro x hx hy
    simp only [List.map_cons, List.map_nil, List.mem_singleton] at hy
    subst hy
    exact hm (h.2 hx)
  · intro x hx
    rw [List.map_append] at hx
    rcases List.mem_append.mp hx with hx | hx
    · exact List.mem_insert_iff.mpr (Or.inr (h.2 hx))
    · simp only [List.map_cons, List.map_nil, List.mem_singleton] at hx
      subst hx
      exact List.mem_insert_iff.mpr (Or.inl rfl)

/-- The locator invariant restricts along sublists of the accumulator. -/
theorem goodAcc_sublist {acc2 acc : List (Nat × Nat)} {ids : List Nat}
    (hs : acc2.Sublist acc) (h : goodAcc acc ids) : goodAcc acc2 ids :=
  ⟨List.Nodup.sublist (hs.map Prod.snd) h.1,
   fun _ hx => h.2 ((hs.map Prod.snd).subset hx)⟩

/-- The cache scan registers every id it collects: the collected ids stay
inside existing_ids, which only grows. -/
theorem cacheScan_subset (userId limit chId : Nat) :
    ∀ (ms : List CachedMessage) (msgs : List (Nat × Nat)) (ids : List Nat),
      msgs.map Prod.snd ⊆ ids →
      (cacheScan userId limit chId ms msgs ids).1.map Prod.snd ⊆
        (cacheScan userId limit chId ms msgs ids).2.1 ∧
      ids ⊆ (cacheScan userId limit chId ms msgs ids).2.1 := by
  intro ms
  induction ms with
  | nil =>
    intro msgs ids h
    simp only [cacheScan]
    exact ⟨h, fun _ hx => hx⟩
  | cons m rest ih =>
    intro msgs ids h
    by_cases ha : m.authorId = userId
    · have hsub : (msgs ++ [(chId, m.id)]).map Prod.snd ⊆ ids.insert m.id := by
        intro x hx
        rw [List.map_append] at hx
        rcases List.mem_append.mp hx with hx | hx
        · exact List.mem_insert_iff.mpr (Or.inr (h hx))
        · simp only [List.map_cons, List.map_nil, List.mem_singleton] at hx
          subst hx
          exact List.mem_insert_iff.mpr (Or.inl rfl)
      by_cases hstop : limit ≤ (msgs ++ [(chId, m.id)]).length
      · simp only [cacheScan, if_pos ha, if_pos hstop]
        exact ⟨hsub, fun _ hx => List.mem_insert_iff.mpr (Or.inr hx)⟩
      · simp only [cacheScan, if_pos ha, if_neg hstop]
        have hrec := ih (msgs ++ [(chId, m.id)]) (ids.insert m.id) hsub
        exact ⟨hrec.1, fun _ hx => hrec.2 (List.mem_insert_iff.mpr (Or.inr hx))⟩
    · simp only [cacheScan, if_neg ha]
      exact ih msgs ids h

/-- The cache phase registers every id it collects: the collected ids stay
inside existing_ids, which only grows. -/
theorem cachePhase_subset (userId limit : Nat) (gIds : List Nat) :
    ∀ (cache : List (Nat × List CachedMessage)) (msgs : List (Nat × Nat)) (ids : List Nat),
      msgs.map Prod.snd ⊆ ids →
      (cachePhase userId limit gIds cache msgs ids).1.map Prod.snd ⊆
        (cachePhase userId limit gIds cache msgs ids).2.1 ∧
      ids ⊆ (cachePhase userId limit gIds cache msgs ids).2.1 := by
  intro cache
  induction cache with
  | nil =>
    intro msgs ids h
    simp only [cachePhase]
    exact ⟨h, fun _ hx => hx⟩
  | cons e rest ih =>
    obtain ⟨chId, cached⟩ := e
    intro msgs ids h
    by_cases hg : chId ∈ gIds
    · have hscan := cacheScan_subset userId limit chId cached msgs ids h
      rcases hdone : cacheScan userId limit chId cached msgs ids with ⟨msgs2, ids2, done⟩
      rw [hdone] at hscan
      cases done with
      | true =>
        simp only [cachePhase, if_pos hg, hdone]
        exact hscan
      | false =>
        simp only [cachePhase, if_pos hg, hdone]
        have hrec := ih msgs2 ids2 hscan.1
        exact ⟨hrec.1, fun x hx => hrec.2 (hscan.2 hx)⟩
    · simp only [cachePhase, if_neg hg]
      exact ih msgs ids h

/-- The ids collected by the cache scan form a sublist of the already
collected ids followed by the ids this author has in the scanned
sequence. -/
theorem cacheScan_sublist (userId limit chId : Nat) :
    ∀ (ms : List CachedMessage) (msgs : List (Nat × Nat)) (ids : List Nat),
      ((cacheScan userId limit chId ms msgs ids).1.map Prod.snd).Sublist
        (msgs.map Prod.snd ++ authoredIds userId ms) := by
  intro ms
  induction ms with
  | nil =>
    intro msgs ids
    simp [cacheScan, authoredIds]
  | cons m rest ih =>
    intro msgs ids
    by_cases ha : m.authorId = userId
    · have haids : authoredIds userId (m :: rest) = m.id :: authoredIds userId rest := by
        simp [authoredIds, ha]
      by_cases hstop : limit ≤ (msgs ++ [(chId, m.id)]).length
      · simp only [cacheScan, if_pos ha, if_pos hstop, haids, List.map_append,
          List.map_cons, List.map_nil]
        exact ((List.nil_sublist _).cons₂ m.id).append_left (msgs.map Prod.snd)
      · simp only [cacheScan, if_pos ha, if_neg hstop, haids]
        have hrec := ih (msgs ++ [(chId, m.id)]) (ids.insert m.id)
        simpa [List.append_assoc] using hrec
    · have haids : authoredIds userId (m :: rest) = authoredIds userId rest := by
        simp [authoredIds, ha]
      simp only [cacheScan, if_neg ha, haids]
      exact ih msgs ids

/-- The ids collected by the cache phase form a sublist of the already
collected ids followed by the author ids of the guild-resolved cache. -/
theorem cachePhase_sublist (userId limit : Nat) (gIds : List Nat) :
    ∀ (cache : List (Nat × List CachedMessage)) (msgs : List (Nat × Nat)) (ids : List Nat),
      ((cachePhase userId limit gIds cache msgs ids).1.map Prod.snd).Sublist
        (msgs.map Prod.snd ++ cacheAuthoredIds userId gIds cache) := by
  intro cache
  induction cache with
  | nil =>
    intro msgs ids
    simp [cachePhase, cacheAuthoredIds]
  | cons e rest ih =>
    obtain ⟨chId, cached⟩ := e
    intro msgs ids
    by_cases hg : chId ∈ gIds
    · have hca : cacheAuthoredIds userId gIds ((chId, cached) :: rest) =
          authoredIds userId cached ++ cacheAuthoredIds userId gIds rest := by
        simp [cacheAuthoredIds, hg]
      rcases hdone : cacheScan userId limit chId cached msgs ids with ⟨msgs2, ids2, done⟩
      have hscan := cacheScan_sublist userId limit chId cached msgs ids
      rw [hdone] at hscan
      cases done with
      | true =>
        simp only [cachePhase, if_pos hg, hdone, hca]
        refine hscan.trans ?_
        rw [← List.append_assoc]
        exact List.sublist_append_left _ _
      | false =>
        simp only [cachePhase, if_pos hg, hdone, hca]
        refine (ih msgs2 ids2).trans ?_
        rw [← List.append_assoc]
        exact hscan.append (List.Sublist.refl _)
    · have hca : cacheAuthoredIds userId gIds ((chId, cached) :: rest) =
          cacheAuthoredIds userId gIds rest := by
        simp [cacheAuthoredIds, hg]
      simp only [cachePhase, if_neg hg, hca]
      exact ih msgs ids

/-- The history scan of one channel preserves the locator invariant for
the whole accumulated candidate list and only grows existing_ids: each
taken message id was absent from existing_ids when taken and is
registered immediately. -/
theorem searchScan_inv (userId remaining chId : Nat) (pre : List (Nat × Nat)) :
    ∀ (hist : List CachedMessage) (found : List (Nat × Nat)) (ids : List Nat),
      goodAcc (pre ++ found) ids →
      goodAcc (pre ++ (searchScan userId remaining chId hist found ids).1)
        (searchScan userId remaining chId hist found ids).2 ∧
      ids ⊆ (searchScan userId remaining chId hist found ids).2 := by
  intro hist
  induction hist with
  | nil =>
    intro found ids h
    simp only [searchScan]
    exact ⟨h, fun _ hx => hx⟩
  | cons m rest ih =>
    intro found ids h
    by_cases hc : m.authorId = userId ∧ m.id ∉ ids
    · have hext : goodAcc (pre ++ (found ++ [(chId, m.id)])) (ids.insert m.id) := by
        rw [← List.append_assoc]
        exact goodAcc_extend h hc.2
      by_cases hstop : remaining ≤ (found ++ [(chId, m.id)]).length
      · simp only [searchScan, if_pos hc, if_pos hstop]
        exact ⟨hext, fun _ hx => List.mem_insert_iff.mpr (Or.inr hx)⟩
      · simp only [searchScan, if_pos hc, if_neg hstop]
        have hrec := ih (found ++ [(chId, m.id)]) (ids.insert m.id) hext
        exact ⟨hrec.1, fun _ hx => hrec.2 (List.mem_insert_iff.mpr (Or.inr hx))⟩
    · simp only [searchScan, if_neg hc]
      exact ih found ids h

/-- search_channel preserves the locator invariant for the accumulated
candidate list extended with its findings, and only grows existing_ids. -/
theorem search_channel_inv (userId remaining : Nat) (ch : GuildChannel)
    (pre : List (Nat × Nat)) (ids : List Nat) (h : goodAcc pre ids) :
    goodAcc (pre ++ (search_channel userId remaining ch ids).1)
      (search_channel userId remaining ch ids).2 ∧
    ids ⊆ (search_channel userId remaining ch ids).2 := by
  by_cases hr : ch.canReadHistory
  · simp only [search_channel, if_pos hr]
    exact searchScan_inv userId remaining ch.chId pre
      (ch.history.take (max (remaining * 5) 100)) [] ids (by simpa using h)
  · simp only [search_channel, if_neg hr]
    exact ⟨by simpa using h, fun _ hx => hx⟩

/-- A gathered batch of channel searches preserves the locator invariant
for the accumulated list extended with all per-channel findings, and only
grows existing_ids. -/
theorem runBatch_inv (userId remaining : Nat) :
    ∀ (batch : List GuildChannel) (pre : List (Nat × Nat)) (ids : List Nat),
      goodAcc pre ids →
      goodAcc (pre ++ (runBatch userId remaining batch ids).1.flatten)
        (runBatch userId remaining batch ids).2 ∧
      ids ⊆ (runBatch userId remaining batch ids).2 := by
  intro batch
  induction batch with
  | nil =>
    intro pre ids h
    simp only [runBatch, List.flatten_nil, List.append_nil]
    exact ⟨h, fun _ hx => hx⟩
  | cons ch rest ih =>
    intro pre ids h
    rcases hr : search_channel userId remaining ch ids with ⟨found, ids2⟩
    have hch := search_channel_inv userId remaining ch pre ids h
    rw [hr] at hch
    rcases ho : runBatch userId remaining rest ids2 with ⟨others, ids3⟩
    have hrest := ih (pre ++ found) ids2 hch.1
    rw [ho] at hrest
    simp only [runBatch, hr, ho, List.flatten_cons]
    constructor
    · rw [← List.append_assoc]
      exact hrest.1
    · exact fun x hx => hrest.2 (hch.2 hx)

/-- The collected messages after a batch are a sublist of the previous
messages followed by all batch findings (the early break only drops
suffixes). -/
theorem collectResults_sublist (limit : Nat) :
    ∀ (results : List (List (Nat × Nat))) (msgs : List (Nat × Nat)),
      (collectResults limit results msgs).Sublist (msgs ++ results.flatten) := by
  intro results
  induction results with
  | nil =>
    intro msgs
    simp [collectResults]
  | cons r rest ih =>
    intro msgs
    by_cases hstop : limit ≤ (msgs ++ r).length
    · simp only [collectResults, if_pos hstop, List.flatten_cons]
      rw [← List.append_assoc]
      exact List.sublist_append_left _ _
    · simp only [collectResults, if_neg hstop, List.flatten_cons]
      simpa [List.append_assoc] using ih (msgs ++ r)

/-- The whole network loop keeps the collected candidate ids pairwise
distinct whenever it starts from an invariant-satisfying state. -/
theorem networkLoop_good (userId limit remaining : Nat) :
    ∀ (batches : List (List GuildChannel)) (msgs : List (Nat × Nat)) (ids : List Nat),
      goodAcc msgs ids →
      ((networkLoop userId limit remaining batches msgs ids).map Prod.snd).Nodup := by
  intro batches
  induction batches with
  | nil =>
    intro msgs ids h
    simpa [networkLoop] using h.1
  | cons batch more ih =>
    intro msgs ids h
    rcases hr : runBatch userId remaining batch ids with ⟨results, ids2⟩
    have hrb := runBatch_inv userId remaining batch msgs ids h
    rw [hr] at hrb
    have hcol := collectResults_sublist limit results msgs
    have hgood2 : goodAcc (collectResults limit results msgs) ids2 :=
      goodAcc_sublist hcol hrb.1
    by_cases hstop : limit ≤ (collectResults limit results msgs).length
    · simp only [networkLoop, hr, if_pos hstop]
      exact hgood2.1
    · simp only [networkLoop, hr, if_neg hstop]
      exact ih _ _ hgood2

/-- C7 amended: for every positive limit, and whenever the author ids
recorded across the guild-resolved cache are pairwise distinct (as
maintained by record, which stores each delivered message once), the
locator returns at most limit candidate pairs with pairwise distinct
message ids across the cache phase and the network phase; returning fewer
than limit candidates is an ordinary result of the same total function. -/
theorem C7_locator_bounded_nodup (messageCache : List (Nat × List CachedMessage))
    (guildChannelIds : List Nat) (textChannels : List GuildChannel)
    (userId limit : Nat) (hpos : 1 ≤ limit)
    (hcache : (cacheAuthoredIds userId guildChannelIds messageCache).Nodup) :
    (get_user_messages messageCache guildChannelIds textChannels userId limit).length
      ≤ limit ∧
    ((get_user_messages messageCache guildChannelIds textChannels userId limit).map
      Prod.snd).Nodup := by
  unfold get_user_messages
  rcases hcp : cachePhase userId limit guildChannelIds messageCache [] []
    with ⟨msgs, ids, done⟩
  have hlen := cachePhase_length userId limit guildChannelIds messageCache [] []
    (by simpa using hpos)
  rw [hcp] at hlen
  have hsub := cachePhase_sublist userId limit guildChannelIds messageCache [] []
  rw [hcp] at hsub
  simp only [List.map_nil, List.nil_append] at hsub
  have hmsgs_nodup : (msgs.map Prod.snd).Nodup := List.Nodup.sublist hsub hcache
  have hsubset := cachePhase_subset userId limit guildChannelIds messageCache [] []
    (by simp)
  rw [hcp] at hsubset
  cases done with
  | true =>
    exact ⟨hlen.1 rfl, hmsgs_nodup⟩
  | false =>
    by_cases hlt : msgs.length < limit
    · simp only [if_pos hlt]
      constructor
      · simp
      · have hnet := networkLoop_good userId limit (limit - msgs.length)
          (chunk5 textChannels) msgs ids ⟨hmsgs_nodup, hsubset.1⟩
        exact List.Nodup.sublist ((List.take_sublist _ _).map Prod.snd) hnet
    · simp only [if_neg hlt]
      constructor
      · simp
      · exact List.Nodup.sublist ((List.take_sublist _ _).map Prod.snd) hmsgs_nodup

/-- C7 witness: a limit of 20 with two cached messages and a permitted
channel whose history holds one new and one already-collected message
returns at most 20 pairwise-distinct candidates. -/
theorem C7_locator_bounded_nodup_witness :
    (get_user_messages [(1, [⟨5, 7, 0⟩, ⟨6, 7, 0⟩])] [1]
        [⟨2, true, [⟨9, 7, 0⟩, ⟨5, 7, 0⟩]⟩] 7 20).length ≤ 20 ∧
    ((get_user_messages [(1, [⟨5, 7, 0⟩, ⟨6, 7, 0⟩])] [1]
        [⟨2, true, [⟨9, 7, 0⟩, ⟨5, 7, 0⟩]⟩] 7 20).map Prod.snd).Nodup :=
  C7_locator_bounded_nodup [(1, [⟨5, 7, 0⟩, ⟨6, 7, 0⟩])] [1]
    [⟨2, true, [⟨9, 7, 0⟩, ⟨5, 7, 0⟩]⟩] 7 20 (by decide) (by decide)

/-- C7 counterexample: with limit 0 and one cached message of the author,
the cache-phase early return (line 122 of repel.py) fires after the first
append and returns one candidate without passing through the final
truncation, so the result is longer than the requested limit. -/
theorem C7_limit_zero_counterexample :
    ¬ ((get_user_messages [(1, [⟨5, 7, 0⟩])] [1] [] 7 0).length ≤ 0) := by
  decide
